import Mathlib

/-!
Shallow embedding of the transaction-execution core of the
`ethereumjs-vm` fork under verification: the Call Executor
(`lib/runCall.js`), the Transaction Executor (`lib/runTx.js`) and the
State Manager (`unnamed/part_001`).  Machine integers are modelled as
`Nat` (gas, nonces, hashes) and `Int` (balances, which the source's
`bn.js` arithmetic can drive negative before guards fire).  The account
cache and the trie are modelled as association lists keyed by address,
with explicit checkpoint stacks; the opcode interpreter (`runCode` /
`runJIT`) is an external collaborator and enters the model as a function
parameter, exactly as the source receives it.
-/

namespace EthVM

/-- 20-byte address, modelled as `Nat`. -/
abbrev Addr := Nat

/-- Account record: nonce, balance, storageRoot, codeHash
(`ethereumjs-account`, external collaborator). -/
structure Account where
  nonce : Nat
  balance : Int
  storageRoot : Nat
  codeHash : Nat
deriving DecidableEq, Repr

/-- Sentinel hash of empty code: `new Account()` carries it. -/
def emptyCodeHash : Nat := 0

/-- The all-zero account produced by deserialising empty trie bytes. -/
def zeroAccount : Account := ⟨0, 0, 0, 0⟩

/-- Modelled from the spec: `isContract` ↔ codeHash differs from the
empty-code sentinel (`ethereumjs-account` is not under src/). -/
def Account.isContract (a : Account) : Bool := a.codeHash != emptyCodeHash

/-- Modelled from the spec: the fixed precompile set is addresses
0x01..0x04 in this revision. -/
def isPrecompiledAddr (a : Addr) : Bool := 1 ≤ a && a ≤ 4

/-- `fees.createDataGas.v` from `ethereum-common`: per-byte surcharge for
installing returned contract code. -/
def createDataGas : Nat := 200

/-! ### Association lists keyed by `Nat` -/

/-- Lookup in an association list (first match wins, like a JS object). -/
def alookup {α : Type} : List (Nat × α) → Nat → Option α
  | [], _ => none
  | (k', v) :: l, k => if k' = k then some v else alookup l k

/-- Drop every pair with the given key. -/
def removeKey {α : Type} (l : List (Nat × α)) (k : Nat) : List (Nat × α) :=
  l.filter (fun p => p.1 != k)

/-- Overwrite the binding for a key (JS object assignment). -/
def upd {α : Type} (l : List (Nat × α)) (k : Nat) (v : α) : List (Nat × α) :=
  (k, v) :: removeKey l k

/-! ### Account cache (`cache.js` is not under src/)

Modelled from the spec: a write-back map address → (account, dirty),
entries deleted via a tombstone; the checkpoint stack holds snapshots of
the entry table, `commit` pops discarding the snapshot, `revert` pops
restoring it; flush walks dirty entries (deleted ⇒ trie delete,
otherwise trie put) and skips warm-clean entries. -/

/-- A cache entry: a stored account with its dirty flag, or a deletion
tombstone. Warm-clean entries (from `warmCache`/`getOrLoad`) carry
`dirty = false`. -/
inductive CEntry where
  | stored (a : Account) (dirty : Bool)
  | deleted
deriving DecidableEq, Repr

structure Cache where
  entries : List (Addr × CEntry)
  checkpoints : List (List (Addr × CEntry))
deriving DecidableEq, Repr

def Cache.get (c : Cache) (a : Addr) : Option Account :=
  match alookup c.entries a with
  | some (.stored acct _) => some acct
  | _ => none

def Cache.put (c : Cache) (a : Addr) (acct : Account) : Cache :=
  { c with entries := upd c.entries a (.stored acct true) }

/-- `cache.put(addr, val, true)`: a warm (clean) insertion from the trie. -/
def Cache.putWarm (c : Cache) (a : Addr) (acct : Account) : Cache :=
  { c with entries := upd c.entries a (.stored acct false) }

def Cache.del (c : Cache) (a : Addr) : Cache :=
  { c with entries := upd c.entries a .deleted }

def Cache.checkpoint (c : Cache) : Cache :=
  { c with checkpoints := c.entries :: c.checkpoints }

def Cache.commit (c : Cache) : Cache :=
  { c with checkpoints := c.checkpoints.tail }

def Cache.revert (c : Cache) : Cache :=
  match c.checkpoints with
  | [] => c
  | s :: rest => ⟨s, rest⟩

/-! ### Outer trie

An authenticated K/V store (external collaborator, §6): account store
keyed by address, plus the raw-db code region keyed by code hash, which
bypasses checkpointing. The abstract root is determined by `store`. -/

structure Trie where
  store : List (Addr × Account)
  codes : List (Nat × List Nat)
  checkpoints : List (List (Addr × Account))
deriving DecidableEq, Repr

def Trie.put (t : Trie) (a : Addr) (acct : Account) : Trie :=
  { t with store := upd t.store a acct }

def Trie.del (t : Trie) (a : Addr) : Trie :=
  { t with store := removeKey t.store a }

def Trie.checkpoint (t : Trie) : Trie :=
  { t with checkpoints := t.store :: t.checkpoints }

def Trie.commit (t : Trie) : Trie :=
  { t with checkpoints := t.checkpoints.tail }

def Trie.revert (t : Trie) : Trie :=
  match t.checkpoints with
  | [] => t
  | s :: rest => { t with store := s, checkpoints := rest }

/-- Modelled from the spec: `ethereumjs-account#getCode` reads the code
blob keyed by the account's `codeHash` from the trie's raw db. -/
def Trie.getCode (t : Trie) (a : Account) : Option (List Nat) :=
  alookup t.codes a.codeHash

/-! ### State manager (`unnamed/part_001`) -/

structure VMState where
  cache : Cache
  trie : Trie
  storageTries : List (Addr × Trie)
deriving DecidableEq, Repr

/-- `StateManager#getAccount` → `cache.getOrLoad`: return the cached
account, or load it from the trie (missing key deserialises to a fresh
zero account) and cache it warm. A deletion tombstone is treated as a
cache miss. -/
def VMState.getAccount (st : VMState) (a : Addr) : Account × VMState :=
  match alookup st.cache.entries a with
  | some (.stored acct _) => (acct, st)
  | _ =>
    let acct := (alookup st.trie.store a).getD zeroAccount
    (acct, { st with cache := st.cache.putWarm a acct })

/-- `StateManager#putAccount`: write to the cache (dirty) and to the
trie. -/
def VMState.putAccount (st : VMState) (a : Addr) (acct : Account) : VMState :=
  { st with cache := st.cache.put a acct, trie := st.trie.put a acct }

/-- `StateManager#putAccountBalance(address, account, balance, cb)`.
The `_account` argument mirrors the source's parameter, which the inner
callback shadows: the stored account is re-read at the write site and
only its balance field is replaced. -/
def VMState.putAccountBalance (st : VMState) (a : Addr) (_account : Account)
    (balance : Int) : VMState :=
  let (acct, st1) := st.getAccount a
  st1.putAccount a { acct with balance := balance }

/-- One step of `StateManager#warmCache`: read the address from the trie
and insert it warm (clean) into the cache. -/
def VMState.warmOne (st : VMState) (a : Addr) : VMState :=
  let acct := (alookup st.trie.store a).getD zeroAccount
  { st with cache := st.cache.putWarm a acct }

def warmCache (st : VMState) (l : List Addr) : VMState :=
  l.foldl VMState.warmOne st

/-- `StateManager#commitContracts`: every registered storage trie is
committed against its own handle and removed from the registry; the
committed handles are dropped, so the registry empties. -/
def commitContracts (st : VMState) : VMState :=
  { st with storageTries := [] }

/-- One step of `cache.flush`: a dirty entry is written to the trie, a
tombstone deletes its key, a warm-clean entry is skipped. -/
def flushEntry (t : Trie) (p : Addr × CEntry) : Trie :=
  match p.2 with
  | .stored a true => t.put p.1 a
  | .stored _ false => t
  | .deleted => t.del p.1

/-- `stateManager.cache.flush`: walk the entry table into the trie. -/
def flushState (st : VMState) : VMState :=
  { st with trie := st.cache.entries.foldl flushEntry st.trie }

/-! ### Interpreter interface (§6, external collaborator) -/

/-- The options record built by `runCall.js` for `runCode`/`runJIT`. -/
structure BlockHeader where
  coinbase : Addr
  gasLimit : Nat
deriving DecidableEq, Repr

structure RunCodeOpts where
  code : List Nat
  data : Option (List Nat)
  gasLimit : Int
  gasPrice : Nat
  account : Account
  address : Addr
  origin : Option Addr
  caller : Addr
  value : Int
  block : Option BlockHeader
  depth : Option Nat
  suicides : Option (List Addr)
deriving DecidableEq, Repr

/-- The interpreter's result record
`{ account, gasUsed, gasRefund, return, logs, suicides, exceptionError }`.
`ret` stands for the source's `return` field; a log is an
(address, topics) pair; `exceptionError` is populated ↔ `true`. -/
structure RunCodeResult where
  account : Account
  gasUsed : Nat
  gasRefund : Option Nat
  ret : List Nat
  logs : Option (List (Addr × List Nat))
  suicides : Option (List Addr)
  exceptionError : Bool
  exception : Option Nat
deriving DecidableEq, Repr

/-- External collaborators wired onto the VM object: the interpreter
(`runCode`), the precompile runner (`runJIT`), the precompile table
(`self._precomiled`), address derivation (`ethUtil.generateAddress`) and
the code hash (`keccak`, used by `ethereumjs-account#setCode`). -/
structure Env where
  runCode : RunCodeOpts → VMState → RunCodeResult × VMState
  runJIT : RunCodeOpts → VMState → RunCodeResult × VMState
  precompiled : Addr → Option (List Nat)
  generateAddress : Addr → Nat → Addr
  codeHashFn : List Nat → Nat

/-- Modelled from the spec: `ethereumjs-account#setCode` stores the code
blob keyed by its hash in the trie's raw db and updates the account's
`codeHash`. -/
def setCode (env : Env) (st : VMState) (acct : Account) (code : List Nat) :
    Account × VMState :=
  let h := env.codeHashFn code
  ({ acct with codeHash := h },
   { st with trie := { st.trie with codes := upd st.trie.codes h code } })

/-! ### Call Executor (`lib/runCall.js`) -/

/-- The options record `runCall` receives. `value` and the other
optional fields are `Option` because the source reads them off a plain
JS object; an absent `value` is replaced by `new BN(0)`. An empty code
buffer differs from an absent one (a JS `Buffer` is truthy even when
empty), hence `Option (List Nat)` for `code` and `data`. -/
structure CallOpts where
  caller : Addr
  account : Account
  /-- the source's `opts.to` -/
  toAddr : Option Addr
  value : Option Int
  data : Option (List Nat)
  code : Option (List Nat)
  gasLimit : Int
  gasPrice : Nat
  origin : Option Addr
  compiled : Bool
  depth : Option Nat
  suicides : Option (List Addr)
  block : Option BlockHeader
deriving Repr

/-- Frame context after the `calculateFromAccountBalance`,
`loadToAccount`, `calculateToAccountBalance` and `loadCode` steps. -/
structure FrameCtx where
  txValue : Int
  account : Account
  createdAddress : Option Addr
  toAddress : Addr
  toAccount : Account
  code : Option (List Nat)
  txData : Option (List Nat)
  isCompiled : Bool
  st : VMState
deriving Repr

/-- Steps 3-4 of the frame, shared by the CALL and CREATE target
resolutions: credit the recipient (`calculateToAccountBalance`) and
select the code (`loadCode`). -/
def mkFrame (env : Env) (opts : CallOpts) (txValue : Int) (account1 : Account)
    (createdAddress : Option Addr) (toAddress : Addr) (toAccount0 : Account)
    (code0 : Option (List Nat)) (txData : Option (List Nat)) (st2 : VMState) :
    FrameCtx :=
  let toAccount1 := { toAccount0 with balance := toAccount0.balance + txValue }
  let st3 := st2.putAccountBalance toAddress toAccount1 toAccount1.balance
  let sel :=
    if code0.isSome || !toAccount1.isContract then (code0, opts.compiled)
    else if isPrecompiledAddr toAddress then (env.precompiled toAddress, true)
    else (st3.trie.getCode toAccount1, false)
  { txValue := txValue, account := account1, createdAddress := createdAddress,
    toAddress := toAddress, toAccount := toAccount1, code := sel.1,
    txData := txData, isCompiled := sel.2, st := st3 }

/-- Steps 1-4 of the frame, in source order:
debit the caller (`calculateFromAccountBalance`), resolve the target
(`loadToAccount`), then credit the recipient and select the code. -/
def callSetup (env : Env) (opts : CallOpts) (st0 : VMState) : FrameCtx :=
  let txValue : Int := opts.value.getD 0
  let account1 := { opts.account with balance := opts.account.balance - txValue }
  let st1 := st0.putAccountBalance opts.caller account1 account1.balance
  match opts.toAddr with
  | none =>
    let ca := env.generateAddress opts.caller account1.nonce
    mkFrame env opts txValue account1 (some ca) ca zeroAccount opts.data none st1
  | some t =>
    mkFrame env opts txValue account1 none t ((st1.getAccount t).1) opts.code
      opts.data ((st1.getAccount t).2)

/-- Output of the `runCode` step of the frame. -/
structure RunOut where
  vmResults : Option RunCodeResult
  account : Account
  toAccount : Account
  gasUsed : Nat
  st : VMState
deriving Repr

/-- The `parseRunResult` callback of `runCode` in `runCall.js`
(lines 135-164), applied to the interpreter's output `out`: run the
contract-creation tail (delete a faulted zero-balance created account,
charge the per-byte return fee or drop the return), then commit on
success or — on `exceptionError` — re-credit the transferred value to
the caller, revert cache and trie and put the caller back. -/
def parseRunResult (opts : CallOpts) (ctx : FrameCtx)
    (out : RunCodeResult × VMState) : RunOut :=
  let results := out.1
  let st6 := out.2
  let toAccount2 := results.account
  let (results2, st7) :=
    match ctx.createdAddress with
    | none => (results, st6)
    | some ca =>
      let st7 := if results.exceptionError = true ∧ toAccount2.balance = 0
                 then { st6 with cache := st6.cache.del ca } else st6
      let returnFee := results.gasUsed + results.ret.length * createDataGas
      if (returnFee : Int) ≤ opts.gasLimit
      then ({ results with gasUsed := returnFee }, st7)
      else ({ results with ret := [] }, st7)
  if results2.exceptionError then
    let account2 := { ctx.account with balance := ctx.account.balance + ctx.txValue }
    { vmResults := some results2, account := account2, toAccount := toAccount2,
      gasUsed := results2.gasUsed,
      st := { st7 with cache := (st7.cache.revert).put opts.caller account2,
                       trie := st7.trie.revert } }
  else
    { vmResults := some results2, account := ctx.account, toAccount := toAccount2,
      gasUsed := results2.gasUsed,
      st := { st7 with cache := st7.cache.commit, trie := st7.trie.commit } }

/-- Step 5-8 of the frame: checkpoint cache and trie, dispatch the
interpreter (`runJIT` for a precompile, `runCode` otherwise) and parse
its result.  In the empty-code path the source commits only the cache;
the trie checkpoint stays open. -/
def runCodeStage (env : Env) (opts : CallOpts) (ctx : FrameCtx) : RunOut :=
  let st5 := { ctx.st with cache := ctx.st.cache.checkpoint,
                           trie := ctx.st.trie.checkpoint }
  match ctx.code with
  | none =>
    { vmResults := none, account := ctx.account, toAccount := ctx.toAccount,
      gasUsed := 0, st := { st5 with cache := st5.cache.commit } }
  | some c =>
    let rcOpts : RunCodeOpts :=
      { code := c, data := ctx.txData, gasLimit := opts.gasLimit,
        gasPrice := opts.gasPrice, account := ctx.toAccount,
        address := ctx.toAddress, origin := opts.origin,
        caller := opts.caller, value := ctx.txValue, block := opts.block,
        depth := opts.depth, suicides := opts.suicides }
    parseRunResult opts ctx
      ((if ctx.isCompiled then env.runJIT else env.runCode) rcOpts st5)

/-- The frame's result record, with the source's
`if (results.vm.exception === undefined) results.vm.exception = 1`
normalisation carried in `vmException`. -/
structure CallResult where
  gasUsed : Nat
  fromAccount : Account
  toAccount : Account
  createdAddress : Option Addr
  vm : Option RunCodeResult
  vmException : Nat
deriving DecidableEq, Repr

/-- The `saveCode` step and the `parseCallResult` callback of
`runCall.js`: install returned creation code, publish the recipient on
success, normalise `vm.exception` to 1 when the interpreter left it
unset. -/
def parseCallResult (env : Env) (opts : CallOpts) (ctx : FrameCtx)
    (ro : RunOut) : CallResult × VMState :=
  let (toAccount3, st9) :=
    match ro.vmResults with
    | some r =>
      if !r.exceptionError && ctx.createdAddress.isSome && !r.ret.isEmpty
      then setCode env ro.st ro.toAccount r.ret
      else (ro.toAccount, ro.st)
    | none => (ro.toAccount, ro.st)
  let exErr := (ro.vmResults.map (·.exceptionError)).getD false
  let st10 := if exErr then st9
              else { st9 with cache := st9.cache.put ctx.toAddress toAccount3 }
  ({ gasUsed := ro.gasUsed, fromAccount := ro.account, toAccount := toAccount3,
     createdAddress := ctx.createdAddress, vm := ro.vmResults,
     vmException := (ro.vmResults.bind (·.exception)).getD 1 }, st10)

/-- One CALL/CREATE frame (`module.exports` of `lib/runCall.js`): the
setup steps, the interpreter dispatch, `saveCode` and
`parseCallResult`. -/
def runCall (env : Env) (opts : CallOpts) (st0 : VMState) :
    CallResult × VMState :=
  let ctx := callSetup env opts st0
  parseCallResult env opts ctx (runCodeStage env opts ctx)

/-! ### Transaction Executor (`lib/runTx.js`) -/

/-- Transaction input. `sender` is the source's `tx.from`; `toAddr` is
`tx.to`, where the empty hex string denotes contract creation. -/
structure Tx where
  nonce : Nat
  gasPrice : Nat
  gasLimit : Nat
  toAddr : Option Addr
  value : Nat
  data : List Nat
  sender : Addr
deriving DecidableEq, Repr

/-- Options of `runTx`; the source defaults `populateCache` to `true`
when it is `undefined`, so the flag arrives here already resolved. -/
structure RunTxOpts where
  tx : Tx
  block : Option BlockHeader
  skipNonce : Bool
  populateCache : Bool
deriving Repr

/-- The three validation errors `runTx` can report. -/
inductive TxError where
  | txGasExceedsBlock
  | insufficientFunds
  | badNonce
deriving DecidableEq, Repr

/-- The default block synthesised when none is given:
`gasLimit = 0xfffffffffffff`, zero coinbase. -/
def defaultBlock : BlockHeader := { coinbase := 0, gasLimit := 0xfffffffffffff }

/-- Modelled from the spec: `tx.getUpfrontCost()` from `ethereumjs-tx`
(not under src/) is `tx.gasLimit · gasPrice + tx.value`. -/
def getUpfrontCost (tx : Tx) : Int :=
  (tx.gasLimit : Int) * (tx.gasPrice : Int) + (tx.value : Int)

/-- Modelled from the spec: `tx.getBaseFee()` from `ethereumjs-tx` (not
under src/) is the intrinsic gas: 21000, plus per-byte data costs (4 per
zero byte, 68 otherwise), plus a 32000 creation surcharge. -/
def getBaseFee (tx : Tx) : Nat :=
  21000 + (tx.data.map (fun b => if b = 0 then 4 else 68)).sum +
    (if tx.toAddr.isNone then 32000 else 0)

/-- `runTx.js` lines 133-143: add the intrinsic basefee upstream, then
apply the interpreter-reported refund. A present refund object is truthy
even at zero; `r < ⌊g/2⌋` subtracts `r`, otherwise `⌊g/2⌋` is
subtracted. -/
def applyRefund (gasUsed : Nat) (gasRefund : Option Nat) : Nat :=
  match gasRefund with
  | none => gasUsed
  | some r => if r < gasUsed / 2 then gasUsed - r else gasUsed - gasUsed / 2

/-- `txLogsBloom`: insert each log's address and then its topics into a
fresh bloom; the bloom is abstracted as the list of inserted items. -/
def txLogsBloom (logs : Option (List (Addr × List Nat))) : List Nat :=
  match logs with
  | none => []
  | some ls => ls.foldl (fun b l => b ++ [l.1] ++ l.2) []

/-- The record `runTx` hands to its callback: the frame result augmented
with the tx-level `gasUsed`, `amountSpent` and `bloom` (the source
overwrites `results.gasUsed` in place; the frame-level value stays
inside `callRes`). -/
structure TxResult where
  gasUsed : Nat
  amountSpent : Int
  bloom : List Nat
  callRes : CallResult
deriving DecidableEq, Repr

/-- `populateCache` stage: warm the cache with `{from, to, coinbase}`
(the empty `to` of a creation tx is filtered out) unless
`populateCache = false`. -/
def populateStage (opts : RunTxOpts) (block : BlockHeader) (st : VMState) :
    VMState :=
  if opts.populateCache then
    warmCache st ([opts.tx.sender] ++
      (match opts.tx.toAddr with | some t => [t] | none => []) ++
      [block.coinbase])
  else st

/-- The `parseResults` callback of `runTx.js` (lines 125-171): bloom,
total gas with basefee and refund, leftover-gas refund to the sender,
miner reward, suicide sweep. -/
def parseResultsStage (opts : RunTxOpts) (block : BlockHeader) (basefee : Nat)
    (callRes : CallResult) (st3 : VMState) : TxResult × VMState :=
  let bloom := txLogsBloom (callRes.vm.bind (·.logs))
  let fromAccount3 := (st3.cache.get opts.tx.sender).getD zeroAccount
  let gasUsed := applyRefund (callRes.gasUsed + basefee)
    (callRes.vm.bind (·.gasRefund))
  let amountSpent : Int := (gasUsed : Int) * (opts.tx.gasPrice : Int)
  let fromAccount4 := { fromAccount3 with
    balance := ((opts.tx.gasLimit : Int) - (gasUsed : Int)) *
      (opts.tx.gasPrice : Int) + fromAccount3.balance }
  let st4 := { st3 with cache := st3.cache.put opts.tx.sender fromAccount4 }
  let miner0 := (st4.cache.get block.coinbase).getD zeroAccount
  let miner1 := { miner0 with balance := miner0.balance + amountSpent }
  let st5 := { st4 with cache := st4.cache.put block.coinbase miner1 }
  let suicides := (callRes.vm.bind (·.suicides)).getD []
  let st6 := suicides.foldl (fun s a => { s with cache := s.cache.del a }) st5
  ({ gasUsed := gasUsed, amountSpent := amountSpent, bloom := bloom,
     callRes := callRes }, st6)

/-- The tail of the `runTx` series: `saveTries` (`commitContracts`), the
final cache flush, and `cache.clear()` when `populateCache` was
requested. -/
def finalizeStage (opts : RunTxOpts) (st6 : VMState) : VMState :=
  let st7 := commitContracts st6
  let st8 := flushState st7
  if opts.populateCache then { st8 with cache := { st8.cache with entries := [] } }
  else st8

/-- The stages of `runTx` after the block-gas guard and cache warming:
the `runCall` closure (validation, nonce increment, gas pre-charge,
frame dispatch, `parseResults`), then `saveTries` and the final flush.
The wiring of `options.account` is absent from src/ (the VM glue file is
missing); modelled from the spec §4.4 — the Call Executor receives the
caller account already debited — matching the second `runTx` copy. -/
def runTxChecked (env : Env) (opts : RunTxOpts) (block : BlockHeader)
    (st1 : VMState) : Except TxError TxResult × VMState :=
  let fromAccount0 := (st1.cache.get opts.tx.sender).getD zeroAccount
  if fromAccount0.balance < getUpfrontCost opts.tx then
    (.error .insufficientFunds, st1)
  else if opts.skipNonce = false ∧ fromAccount0.nonce ≠ opts.tx.nonce then
    (.error .badNonce, st1)
  else
    let fromAccount1 := { fromAccount0 with nonce := fromAccount0.nonce + 1 }
    let basefee := getBaseFee opts.tx
    let frameGasLimit : Int := (opts.tx.gasLimit : Int) - (basefee : Int)
    let fromAccount2 := { fromAccount1 with
      balance := fromAccount1.balance -
        (opts.tx.gasLimit : Int) * (opts.tx.gasPrice : Int) }
    let st2 := { st1 with cache := st1.cache.put opts.tx.sender fromAccount2 }
    let callOpts : CallOpts :=
      { caller := opts.tx.sender, account := fromAccount2,
        toAddr := opts.tx.toAddr, value := some (opts.tx.value : Int),
        data := some opts.tx.data, code := none,
        gasLimit := frameGasLimit, gasPrice := opts.tx.gasPrice,
        origin := none, compiled := false, depth := none, suicides := none,
        block := some block }
    let out := runCall env callOpts st2
    let parsed := parseResultsStage opts block basefee out.1 out.2
    (.ok parsed.1, finalizeStage opts parsed.2)

/-- `module.exports` of `lib/runTx.js`: synthesise the default block,
refuse a tx whose gas limit exceeds the block's, warm the cache, then
run the remaining stages. The before/after hooks are observers with no
registered listeners here. -/
def runTx (env : Env) (opts : RunTxOpts) (st0 : VMState) :
    Except TxError TxResult × VMState :=
  let block := opts.block.getD defaultBlock
  if block.gasLimit < opts.tx.gasLimit then (.error .txGasExceedsBlock, st0)
  else runTxChecked env opts block (populateStage opts block st0)

/-! ### Concrete instances

Small closed accounts, states, environments and option records used to
evaluate the model at specific inputs. -/

/-- An interpreter result reporting immediate success with no effects. -/
def okResult : RunCodeResult :=
  { account := zeroAccount, gasUsed := 0, gasRefund := none, ret := [],
    logs := none, suicides := none, exceptionError := false, exception := none }

/-- An interpreter result reporting an exceptional halt, echoing the
frame's target account. -/
def excResult (acct : Account) : RunCodeResult :=
  { account := acct, gasUsed := 7, gasRefund := none, ret := [],
    logs := none, suicides := none, exceptionError := true, exception := some 0 }

/-- An interpreter result returning the runtime code `[7, 7]`. -/
def retResult : RunCodeResult :=
  { account := zeroAccount, gasUsed := 5, gasRefund := none, ret := [7, 7],
    logs := none, suicides := none, exceptionError := false, exception := none }

/-- A collaborator bundle whose interpreter succeeds immediately and
leaves the state untouched. -/
def envOk : Env :=
  { runCode := fun _ s => (okResult, s),
    runJIT := fun _ s => (okResult, s),
    precompiled := fun _ => none,
    generateAddress := fun c n => 100 + c + n,
    codeHashFn := fun c => c.length + 50 }

/-- A collaborator bundle whose interpreter halts exceptionally at once. -/
def envExc : Env :=
  { envOk with
    runCode := fun o s => (excResult o.account, s),
    runJIT := fun o s => (excResult o.account, s) }

/-- A collaborator bundle whose interpreter returns the code `[7, 7]`. -/
def envRet : Env :=
  { envOk with
    runCode := fun _ s => (retResult, s),
    runJIT := fun _ s => (retResult, s) }

/-- An interpreter that performs one nested CALL — address 7 receives
value 2 and the sub-frame faults — and then completes its own frame
successfully with 100 gas used, exactly a contract whose only exception
is in a nested frame. -/
def envNested : Env :=
  { envOk with
    runCode := fun o s =>
      let inner : CallOpts :=
        { caller := o.address, account := o.account, toAddr := some 7,
          value := some 2, data := none, code := some [0],
          gasLimit := o.gasLimit, gasPrice := o.gasPrice, origin := o.origin,
          compiled := false, depth := none, suicides := o.suicides,
          block := o.block }
      let out := runCall envExc inner s
      ({ account := o.account, gasUsed := 100, gasRefund := none, ret := [],
         logs := none, suicides := none, exceptionError := false,
         exception := none }, out.2) }

/-- An interpreter that succeeds immediately, echoes back the target
account it was handed, and leaves the state untouched. -/
def envEcho : Env :=
  { envOk with
    runCode := fun o s => ({ okResult with account := o.account }, s),
    runJIT := fun o s => ({ okResult with account := o.account }, s) }

def acctTen : Account := { nonce := 0, balance := 10, storageRoot := 0, codeHash := 0 }

def acctRich : Account := { nonce := 0, balance := 1000000, storageRoot := 0, codeHash := 0 }

def acctPoor : Account := { nonce := 0, balance := 100, storageRoot := 0, codeHash := 0 }

/-- A contract account whose code (`[0]`) lives at code hash 52. -/
def acctContract : Account := { nonce := 0, balance := 0, storageRoot := 0, codeHash := 52 }

def emptyCache : Cache := { entries := [], checkpoints := [] }

/-- Frame-level state: caller 1 holds 10 wei, address 2 is a zero EOA. -/
def stFrame : VMState :=
  { cache := emptyCache,
    trie := { store := [(1, acctTen), (2, zeroAccount)], codes := [],
              checkpoints := [] },
    storageTries := [] }

/-- Tx-level state: sender 1 is rich, address 20 is a contract. -/
def stTx : VMState :=
  { cache := emptyCache,
    trie := { store := [(1, acctRich), (20, acctContract)], codes := [(52, [0])],
              checkpoints := [] },
    storageTries := [] }

/-- Tx-level state with a poor sender. -/
def stPoor : VMState :=
  { cache := emptyCache,
    trie := { store := [(1, acctPoor)], codes := [], checkpoints := [] },
    storageTries := [] }

/-- CREATE frame with zero value whose init code `[0]` will fault. -/
def optsCreateExc : CallOpts :=
  { caller := 1, account := acctTen, toAddr := none, value := some 0,
    data := some [0], code := none, gasLimit := 100, gasPrice := 1,
    origin := none, compiled := false, depth := none, suicides := none,
    block := none }

/-- Pure value transfer frame: 5 wei from 1 to the codeless address 2. -/
def optsTransfer : CallOpts :=
  { caller := 1, account := acctTen, toAddr := some 2, value := some 5,
    data := none, code := none, gasLimit := 100, gasPrice := 1,
    origin := none, compiled := false, depth := none, suicides := none,
    block := none }

/-- CALL frame with absent value, targeting address 9 which exists
nowhere. -/
def optsCallMissing : CallOpts :=
  { caller := 1, account := acctTen, toAddr := some 9, value := none,
    data := none, code := none, gasLimit := 100, gasPrice := 1,
    origin := none, compiled := false, depth := none, suicides := none,
    block := none }

/-- CREATE frame with room for the return fee (`5 + 2·200 ≤ 1000`). -/
def optsCreateRet : CallOpts :=
  { caller := 1, account := acctTen, toAddr := none, value := some 0,
    data := some [1], code := none, gasLimit := 1000, gasPrice := 1,
    origin := none, compiled := false, depth := none, suicides := none,
    block := none }

/-- The same CREATE frame with a gas limit one below the return fee
(`5 + 2·200 = 405 > 404`). -/
def optsCreateTight : CallOpts :=
  { optsCreateRet with gasLimit := 404 }

def demoBlock : BlockHeader := { coinbase := 3, gasLimit := 30000 }

/-- Plain value transfer tx: 1000 wei from 1 to 2 at gas price 1. -/
def txTransfer : Tx :=
  { nonce := 0, gasPrice := 1, gasLimit := 21000, toAddr := some 2,
    value := 1000, data := [], sender := 1 }

def optsTxTransfer : RunTxOpts :=
  { tx := txTransfer, block := some demoBlock, skipNonce := false,
    populateCache := true }

/-- Tx whose contract target runs the nested-faulting interpreter. -/
def txNested : Tx :=
  { nonce := 0, gasPrice := 1, gasLimit := 22000, toAddr := some 20,
    value := 5, data := [], sender := 1 }

def optsTxNested : RunTxOpts :=
  { tx := txNested, block := some demoBlock, skipNonce := false,
    populateCache := true }

/-- Tx with both too little balance at the sender and a wrong nonce. -/
def txBothBad : Tx :=
  { nonce := 5, gasPrice := 1, gasLimit := 21000, toAddr := some 2,
    value := 0, data := [], sender := 1 }

def optsTxBothBad : RunTxOpts :=
  { tx := txBothBad, block := some demoBlock, skipNonce := false,
    populateCache := true }

/-- Tx with a wrong nonce but sufficient funds. -/
def optsTxBadNonce : RunTxOpts :=
  { tx := { txBothBad with value := 1 }, block := some demoBlock,
    skipNonce := false, populateCache := true }

deriving instance DecidableEq for Except

/-- The state `runTx` has produced when validation runs: the initial
state after the `populateCache` warming stage (under the possibly
defaulted block). -/
def preState (opts : RunTxOpts) (st : VMState) : VMState :=
  populateStage opts (opts.block.getD defaultBlock) st

/-- The sender account as the validation stage reads it. -/
def preSender (opts : RunTxOpts) (st : VMState) : Account :=
  ((preState opts st).cache.get opts.tx.sender).getD zeroAccount

/-- The invariant tracked through a frame for the nonce claim: the cache
holds a dirty stored entry at `x` whose account carries nonce `N`.
Every write the executors perform either targets another address, or
goes through `putAccountBalance` — which re-reads the stored account and
replaces only its balance — or re-puts an account that was read while
the invariant held, so the nonce survives arbitrary balance traffic. -/
def dirtyNonceAt (x : Addr) (N : Nat) (st : VMState) : Prop :=
  ∃ A, alookup st.cache.entries x = some (CEntry.stored A true) ∧ A.nonce = N

/-! ### Helper lemmas about the association-list primitives -/

theorem alookup_upd_eq {α : Type} (l : List (Nat × α)) (k : Nat) (v : α) :
    alookup (upd l k v) k = some v := by
  simp [upd, alookup]

theorem alookup_removeKey_ne {α : Type} (l : List (Nat × α)) (k k' : Nat)
    (h : k' ≠ k) : alookup (removeKey l k) k' = alookup l k' := by
  induction l with
  | nil => rfl
  | cons p l ih =>
    obtain ⟨a, b⟩ := p
    by_cases hp : a = k
    · have h1 : (a != k) = false := by simp [hp]
      have h2 : ¬ a = k' := by omega
      simp only [removeKey, List.filter_cons, h1, Bool.false_eq_true,
        if_false, alookup, h2]
      exact ih
    · have h1 : (a != k) = true := by simp [hp]
      simp only [removeKey, List.filter_cons, h1, if_true]
      by_cases hk' : a = k'
      · simp [alookup, hk']
      · simp only [alookup, hk', if_false]
        exact ih

theorem alookup_upd_ne {α : Type} (l : List (Nat × α)) (k k' : Nat) (v : α)
    (h : k' ≠ k) : alookup (upd l k v) k' = alookup l k' := by
  simp [upd, alookup, Ne.symm h, alookup_removeKey_ne l k k' h]

theorem filterKey_removeKey {α : Type} (l : List (Nat × α)) (k : Nat) :
    (removeKey l k).filter (fun p => p.1 == k) = [] := by
  induction l with
  | nil => rfl
  | cons p l ih =>
    by_cases hp : p.1 = k <;>
      simp_all [removeKey, List.filter_cons, hp]

theorem filterKey_upd_eq {α : Type} (l : List (Nat × α)) (k : Nat) (v : α) :
    (upd l k v).filter (fun p => p.1 == k) = [(k, v)] := by
  simp [upd, List.filter_cons, filterKey_removeKey]

theorem filterKey_removeKey_ne {α : Type} (l : List (Nat × α)) (k k' : Nat)
    (h : k' ≠ k) :
    (removeKey l k).filter (fun p => p.1 == k') =
      l.filter (fun p => p.1 == k') := by
  induction l with
  | nil => rfl
  | cons p l ih =>
    by_cases hp : p.1 = k
    · have : ¬ p.1 = k' := by omega
      simp_all [removeKey, List.filter_cons, hp]
    · by_cases hk' : p.1 = k' <;>
        simp_all [removeKey, List.filter_cons, hp]

theorem filterKey_upd_ne {α : Type} (l : List (Nat × α)) (k k' : Nat) (v : α)
    (h : k' ≠ k) :
    (upd l k v).filter (fun p => p.1 == k') =
      l.filter (fun p => p.1 == k') := by
  have : ¬ k = k' := by omega
  simp [upd, List.filter_cons, this, filterKey_removeKey_ne l k k' h]

/-! ### Lemmas about cache warming and validation paths -/

theorem warmCache_trie (l : List Addr) (st : VMState) :
    (warmCache st l).trie = st.trie := by
  induction l generalizing st with
  | nil => rfl
  | cons a l ih => simpa [warmCache, VMState.warmOne] using ih _

theorem warmCache_storageTries (l : List Addr) (st : VMState) :
    (warmCache st l).storageTries = st.storageTries := by
  induction l generalizing st with
  | nil => rfl
  | cons a l ih => simpa [warmCache, VMState.warmOne] using ih _

theorem populateStage_trie (opts : RunTxOpts) (b : BlockHeader) (st : VMState) :
    (populateStage opts b st).trie = st.trie := by
  unfold populateStage
  split
  · exact warmCache_trie _ _
  · rfl

/-- No branch of the post-guard stages can report `txGasExceedsBlock`. -/
theorem runTxChecked_ne_gasGuard (env : Env) (opts : RunTxOpts)
    (block : BlockHeader) (st1 : VMState) :
    (runTxChecked env opts block st1).1 ≠ .error .txGasExceedsBlock := by
  unfold runTxChecked
  by_cases h1 : ((st1.cache.get opts.tx.sender).getD zeroAccount).balance <
      getUpfrontCost opts.tx
  · simp [h1]
  · by_cases h2 : opts.skipNonce = false ∧
        ((st1.cache.get opts.tx.sender).getD zeroAccount).nonce ≠ opts.tx.nonce
    · simp [h1, h2]
    · simp [h1, h2]

/-! ### Claim theorems -/

/-- C1: whenever the interpreter reports a refund `r`, the transaction
executor takes `gasUsed` to be the frame's gas plus the intrinsic
basefee and then subtracts exactly `min r ⌊gasUsed/2⌋` from it, so the
applied refund never exceeds half of that gas used
(`runTx.js` lines 133-143, embodied by `applyRefund` inside
`parseResultsStage`). -/
theorem applyRefund_eq_sub_min (frameGas basefee r : Nat) :
    applyRefund (frameGas + basefee) (some r) =
      (frameGas + basefee) - min r ((frameGas + basefee) / 2) ∧
    (frameGas + basefee) - applyRefund (frameGas + basefee) (some r) ≤
      (frameGas + basefee) / 2 := by
  simp only [applyRefund]
  rcases Nat.lt_or_ge r ((frameGas + basefee) / 2) with h | h
  · rw [if_pos h, Nat.min_eq_left (Nat.le_of_lt h)]
    omega
  · rw [if_neg (Nat.not_lt.mpr h), Nat.min_eq_right h]
    omega

/-- C7: `runTx` reports `txGasExceedsBlock` exactly when the
transaction's gas limit strictly exceeds the (possibly defaulted)
block's gas limit; since the guard sits in front of every other stage,
the equality boundary is accepted and the `+1` boundary rejected
whatever the rest of the input looks like. -/
theorem tx_gas_guard_iff (env : Env) (opts : RunTxOpts) (st : VMState) :
    (runTx env opts st).1 = .error .txGasExceedsBlock ↔
      (opts.block.getD defaultBlock).gasLimit < opts.tx.gasLimit := by
  unfold runTx
  by_cases h : (opts.block.getD defaultBlock).gasLimit < opts.tx.gasLimit
  · simp [h]
  · simp only [if_neg h]
    exact iff_of_false (runTxChecked_ne_gasGuard _ _ _ _) h

/-- C9: `putAccountBalance` re-reads the stored account at the write
site, so the account put back has the new balance and the previously
stored nonce, storageRoot and codeHash; the caller-supplied account
argument never reaches the store (`unnamed/part_001` lines 138-145). -/
theorem putAccountBalance_preserves_other_fields (st : VMState) (a : Addr)
    (acctArg acctArg' : Account) (bal : Int) :
    (st.putAccountBalance a acctArg bal).cache.get a =
      some { nonce := (st.getAccount a).1.nonce, balance := bal,
             storageRoot := (st.getAccount a).1.storageRoot,
             codeHash := (st.getAccount a).1.codeHash } ∧
    alookup (st.putAccountBalance a acctArg bal).trie.store a =
      some { nonce := (st.getAccount a).1.nonce, balance := bal,
             storageRoot := (st.getAccount a).1.storageRoot,
             codeHash := (st.getAccount a).1.codeHash } ∧
    st.putAccountBalance a acctArg bal = st.putAccountBalance a acctArg' bal := by
  refine ⟨?_, ?_, rfl⟩ <;>
  · unfold VMState.putAccountBalance VMState.putAccount
    rcases hl : alookup st.cache.entries a with _ | e
    · simp [VMState.getAccount, hl, Cache.get, Cache.put, Trie.put,
        alookup_upd_eq]
    · cases e with
      | stored acct d =>
        simp [VMState.getAccount, hl, Cache.get, Cache.put, Trie.put,
          alookup_upd_eq]
      | deleted =>
        simp [VMState.getAccount, hl, Cache.get, Cache.put, Trie.put,
          alookup_upd_eq]

/-! ### Entry-tracking lemmas for the state-manager operations -/

theorem getAccount_of_stored (st : VMState) (a : Addr) (acct : Account)
    (d : Bool) (h : alookup st.cache.entries a = some (.stored acct d)) :
    st.getAccount a = (acct, st) := by
  unfold VMState.getAccount
  rw [h]

theorem getAccount_of_none (st : VMState) (a : Addr)
    (hc : alookup st.cache.entries a = none)
    (ht : alookup st.trie.store a = none) :
    st.getAccount a =
      (zeroAccount, { st with cache := st.cache.putWarm a zeroAccount }) := by
  unfold VMState.getAccount
  rw [hc, ht]
  rfl

theorem getAccount_cache_ne (st : VMState) (a x : Addr) (h : x ≠ a) :
    alookup (st.getAccount a).2.cache.entries x = alookup st.cache.entries x := by
  unfold VMState.getAccount
  rcases hl : alookup st.cache.entries a with _ | e
  · simp [Cache.putWarm, alookup_upd_ne _ _ _ _ h]
  · cases e with
    | stored acct d => simp
    | deleted => simp [Cache.putWarm, alookup_upd_ne _ _ _ _ h]

theorem getAccount_trie (st : VMState) (a : Addr) :
    (st.getAccount a).2.trie = st.trie := by
  unfold VMState.getAccount
  rcases hl : alookup st.cache.entries a with _ | e
  · simp
  · cases e <;> simp

theorem putAccountBalance_cache_ne (st : VMState) (a x : Addr)
    (acctArg : Account) (bal : Int) (h : x ≠ a) :
    alookup (st.putAccountBalance a acctArg bal).cache.entries x =
      alookup st.cache.entries x := by
  unfold VMState.putAccountBalance VMState.putAccount
  rcases hl : alookup st.cache.entries a with _ | e
  · simp [VMState.getAccount, hl, Cache.put, Cache.putWarm,
      alookup_upd_ne _ _ _ _ h]
  · cases e with
    | stored acct d =>
      simp [VMState.getAccount, hl, Cache.put, alookup_upd_ne _ _ _ _ h]
    | deleted =>
      simp [VMState.getAccount, hl, Cache.put, Cache.putWarm,
        alookup_upd_ne _ _ _ _ h]

theorem putAccountBalance_trie_ne (st : VMState) (a x : Addr)
    (acctArg : Account) (bal : Int) (h : x ≠ a) :
    alookup (st.putAccountBalance a acctArg bal).trie.store x =
      alookup st.trie.store x := by
  unfold VMState.putAccountBalance VMState.putAccount
  rcases hl : alookup st.cache.entries a with _ | e
  · simp [VMState.getAccount, hl, Trie.put, alookup_upd_ne _ _ _ _ h]
  · cases e with
    | stored acct d =>
      simp [VMState.getAccount, hl, Trie.put, alookup_upd_ne _ _ _ _ h]
    | deleted =>
      simp [VMState.getAccount, hl, Trie.put, alookup_upd_ne _ _ _ _ h]

theorem putAccountBalance_entry_self (st : VMState) (a : Addr)
    (acctArg : Account) (bal : Int) :
    alookup (st.putAccountBalance a acctArg bal).cache.entries a =
      some (.stored { (st.getAccount a).1 with balance := bal } true) := by
  unfold VMState.putAccountBalance VMState.putAccount
  rcases hl : alookup st.cache.entries a with _ | e
  · simp [VMState.getAccount, hl, Cache.put, alookup_upd_eq]
  · cases e with
    | stored acct d => simp [VMState.getAccount, hl, Cache.put, alookup_upd_eq]
    | deleted => simp [VMState.getAccount, hl, Cache.put, alookup_upd_eq]

theorem putAccountBalance_trie_self (st : VMState) (a : Addr)
    (acctArg : Account) (bal : Int) :
    alookup (st.putAccountBalance a acctArg bal).trie.store a =
      some { (st.getAccount a).1 with balance := bal } := by
  unfold VMState.putAccountBalance VMState.putAccount
  rcases hl : alookup st.cache.entries a with _ | e
  · simp [VMState.getAccount, hl, Trie.put, alookup_upd_eq]
  · cases e with
    | stored acct d => simp [VMState.getAccount, hl, Trie.put, alookup_upd_eq]
    | deleted => simp [VMState.getAccount, hl, Trie.put, alookup_upd_eq]

/-! ### Flush and suicide-sweep lemmas -/

theorem flushFold_no_key (l : List (Addr × CEntry)) (t : Trie) (x : Addr)
    (h : ∀ p ∈ l, p.1 ≠ x) :
    alookup (l.foldl flushEntry t).store x = alookup t.store x := by
  induction l generalizing t with
  | nil => rfl
  | cons p l ih =>
    have hp : p.1 ≠ x := h p (List.mem_cons_self _ _)
    have hl : ∀ q ∈ l, q.1 ≠ x := fun q hq => h q (List.mem_cons_of_mem _ hq)
    rw [List.foldl_cons, ih _ hl]
    rcases p with ⟨k, e⟩
    simp only at hp
    cases e with
    | stored a d =>
      cases d with
      | true => simp [flushEntry, Trie.put, alookup_upd_ne _ _ _ _ (Ne.symm hp)]
      | false => rfl
    | deleted =>
      simp [flushEntry, Trie.del, alookup_removeKey_ne _ _ _ (Ne.symm hp)]

theorem flushFold_single (l : List (Addr × CEntry)) (t : Trie) (x : Addr)
    (a : Account)
    (h : l.filter (fun p => p.1 == x) = [(x, .stored a true)]) :
    alookup (l.foldl flushEntry t).store x = some a := by
  induction l generalizing t with
  | nil => simp at h
  | cons p l ih =>
    rw [List.filter_cons] at h
    by_cases hp : (p.1 == x) = true
    · rw [if_pos hp] at h
      simp only [List.cons.injEq] at h
      obtain ⟨hp1, hl⟩ := h
      subst hp1
      rw [List.foldl_cons]
      have hnone : ∀ q ∈ l, q.1 ≠ x := by
        intro q hq hqx
        have hmem : q ∈ l.filter (fun p => p.1 == x) :=
          List.mem_filter.mpr ⟨hq, by simp [hqx]⟩
        rw [hl] at hmem
        simp at hmem
      rw [flushFold_no_key l _ x hnone]
      simp [flushEntry, Trie.put, alookup_upd_eq]
    · rw [if_neg hp] at h
      rw [List.foldl_cons]
      exact ih _ h

/-- Sweeping a suicide list that avoids `x` neither changes the
filter-shape of the cache entries at `x` nor the trie. -/
theorem delFold_avoids (l : List Addr) (st : VMState) (x : Addr)
    (h : x ∉ l) :
    ((l.foldl (fun s a => { s with cache := s.cache.del a }) st).cache.entries).filter
        (fun p => p.1 == x) =
      (st.cache.entries).filter (fun p => p.1 == x) ∧
    (l.foldl (fun s a => { s with cache := s.cache.del a }) st).trie = st.trie := by
  induction l generalizing st with
  | nil => exact ⟨rfl, rfl⟩
  | cons b l ih =>
    have h1 : x ≠ b := fun e => h (e ▸ List.mem_cons_self b l)
    have h2 : x ∉ l := fun e => h (List.mem_cons_of_mem b e)
    rw [List.foldl_cons]
    obtain ⟨ih1, ih2⟩ := ih _ h2
    refine ⟨?_, ih2⟩
    rw [ih1]
    simp [Cache.del, filterKey_upd_ne _ _ _ _ h1]

/-! ### Caller-nonce tracking through a frame -/

/-- A `getAccount` at any address preserves the dirty-nonce invariant at
`x`: the only cache write, the `putWarm` on a miss, targets the
looked-up address, which on a hit at `x` never happens. -/
theorem getAccount_dirtyNonce (st : VMState) (a x : Addr) (N : Nat)
    (h : dirtyNonceAt x N st) : dirtyNonceAt x N (st.getAccount a).2 := by
  obtain ⟨A, hA, hN⟩ := h
  by_cases hax : a = x
  · subst hax
    rw [getAccount_of_stored st a A true hA]
    exact ⟨A, hA, hN⟩
  · refine ⟨A, ?_, hN⟩
    rw [getAccount_cache_ne st a x (fun e => hax e.symm)]
    exact hA

/-- Reading the invariant address yields the account with nonce `N`. -/
theorem getAccount_fst_dirtyNonce (st : VMState) (x : Addr) (N : Nat)
    (h : dirtyNonceAt x N st) : ((st.getAccount x).1).nonce = N := by
  obtain ⟨A, hA, hN⟩ := h
  rw [getAccount_of_stored st x A true hA]
  exact hN

/-- A `putAccountBalance` at any address — the invariant one included —
preserves the dirty-nonce invariant at `x`: the write re-reads the
stored account and replaces only its balance. -/
theorem putAccountBalance_dirtyNonce (st : VMState) (a x : Addr) (N : Nat)
    (arg : Account) (bal : Int) (h : dirtyNonceAt x N st) :
    dirtyNonceAt x N (st.putAccountBalance a arg bal) := by
  by_cases hax : a = x
  · subst hax
    refine ⟨{ (st.getAccount a).1 with balance := bal },
      putAccountBalance_entry_self st a arg bal, ?_⟩
    show ((st.getAccount a).1).nonce = N
    exact getAccount_fst_dirtyNonce st a N h
  · obtain ⟨A, hA, hN⟩ := h
    refine ⟨A, ?_, hN⟩
    rw [putAccountBalance_cache_ne st a x arg bal (fun e => hax e.symm)]
    exact hA

/-- Steps 1-4 of a frame whose caller entry is dirty with nonce `N` and
whose `opts.account` carries that nonce: the invariant survives the
debit, the target resolution and the credit (a self-send included), the
context's caller account keeps nonce `N`, a frame whose target is the
caller reads a recipient account with nonce `N`, and a CREATE target
never equals the caller. -/
theorem callSetup_dirtyNonce (env : Env) (opts : CallOpts) (st : VMState)
    (N : Nat)
    (hc : dirtyNonceAt opts.caller N st)
    (hacct : opts.account.nonce = N)
    (hgen : ∀ n, env.generateAddress opts.caller n ≠ opts.caller) :
    dirtyNonceAt opts.caller N (callSetup env opts st).st ∧
    (callSetup env opts st).account.nonce = N ∧
    ((callSetup env opts st).toAddress = opts.caller →
      (callSetup env opts st).toAccount.nonce = N) ∧
    (∀ ca, (callSetup env opts st).createdAddress = some ca →
      ca ≠ opts.caller) := by
  have h1 : ∀ (arg : Account) (b : Int),
      dirtyNonceAt opts.caller N (st.putAccountBalance opts.caller arg b) := by
    intro arg b
    refine ⟨{ (st.getAccount opts.caller).1 with balance := b },
      putAccountBalance_entry_self st opts.caller arg b, ?_⟩
    show ((st.getAccount opts.caller).1).nonce = N
    exact getAccount_fst_dirtyNonce st opts.caller N hc
  rcases hx : opts.toAddr with _ | t
  · unfold callSetup
    rw [hx]
    dsimp only [mkFrame]
    refine ⟨putAccountBalance_dirtyNonce _ _ _ N _ _ (h1 _ _), hacct, ?_, ?_⟩
    · intro hta
      exact absurd hta (hgen _)
    · intro ca hca
      have hceq : env.generateAddress opts.caller opts.account.nonce = ca :=
        Option.some.inj hca
      exact hceq ▸ hgen _
  · unfold callSetup
    rw [hx]
    dsimp only [mkFrame]
    refine ⟨putAccountBalance_dirtyNonce _ _ _ N _ _
        (getAccount_dirtyNonce _ _ _ N (h1 _ _)), hacct, ?_, ?_⟩
    · intro hta
      rw [hta]
      exact getAccount_fst_dirtyNonce _ _ N (h1 _ _)
    · intro ca hca
      exact Option.noConfusion hca

theorem Cache.checkpoint_entries (c : Cache) :
    (Cache.checkpoint c).entries = c.entries := rfl

theorem Cache.commit_entries (c : Cache) :
    (Cache.commit c).entries = c.entries := rfl

theorem Cache.put_entries (c : Cache) (x : Addr) (a : Account) :
    (Cache.put c x a).entries = upd c.entries x (.stored a true) := rfl

theorem Cache.del_entries (c : Cache) (x : Addr) :
    (Cache.del c x).entries = upd c.entries x .deleted := rfl

/-- Through `parseRunResult`, the caller's cache entry stays a dirty
stored account with nonce `N`: the commit path keeps the interpreter's
entry table, the exception path re-puts the caller account — which
carries nonce `N` — after the revert, and the created-account deletion
targets an address different from the caller.  The reported record's
`toAccount` is the interpreter's `account` output, so a self-targeting
frame inherits its nonce from it, and the reported suicide set is the
interpreter's. -/
theorem parseRunResult_dirtyNonce (opts : CallOpts) (ctx : FrameCtx)
    (out : RunCodeResult × VMState) (N : Nat)
    (hoe : dirtyNonceAt opts.caller N out.2)
    (hacct : ctx.account.nonce = N)
    (hta : ctx.toAddress = opts.caller → ((out.1.account)).nonce = N)
    (hos : opts.caller ∉ (out.1.suicides.getD []))
    (hca : ∀ ca, ctx.createdAddress = some ca → ca ≠ opts.caller) :
    dirtyNonceAt opts.caller N (parseRunResult opts ctx out).st ∧
    (ctx.toAddress = opts.caller →
      ((parseRunResult opts ctx out).toAccount).nonce = N) ∧
    opts.caller ∉
      (((parseRunResult opts ctx out).vmResults.bind (·.suicides)).getD []) := by
  obtain ⟨results, st6⟩ := out
  simp only at hoe hos hta
  unfold parseRunResult
  dsimp only
  rcases hcad : ctx.createdAddress with _ | ca
  · dsimp only
    split
    · refine ⟨⟨{ ctx.account with balance := ctx.account.balance + ctx.txValue },
        ?_, hacct⟩, hta, ?_⟩
      · simp only [Cache.put_entries, alookup_upd_eq]
      · simpa using hos
    · obtain ⟨A, hA, hN⟩ := hoe
      refine ⟨⟨A, ?_, hN⟩, hta, ?_⟩
      · simp only [Cache.commit_entries]
        exact hA
      · simpa using hos
  · dsimp only
    have hcane : opts.caller ≠ ca := Ne.symm (hca ca hcad)
    have hupdne : ∀ (l : List (Addr × CEntry)) (v : CEntry),
        alookup (upd l ca v) opts.caller = alookup l opts.caller :=
      fun l v => alookup_upd_ne l ca opts.caller v hcane
    obtain ⟨A, hA, hN⟩ := hoe
    repeat' split
    all_goals
      first
      | (refine ⟨⟨{ ctx.account with balance := ctx.account.balance + ctx.txValue },
           ?_, hacct⟩, hta, ?_⟩
         simp only [Cache.put_entries, alookup_upd_eq]
         simpa using hos)
      | (refine ⟨⟨A, ?_, hN⟩, hta, ?_⟩
         simp only [Cache.commit_entries, Cache.del_entries, hupdne]
         exact hA
         simpa using hos)

/-- Same nonce-tracking through the whole interpreter stage, the
checkpoints included, provided the interpreter preserves dirty-nonce
entries at the caller, reports back an account with the nonce it was
handed, and never reports the caller suicided. -/
theorem runCodeStage_dirtyNonce (env : Env) (opts : CallOpts)
    (ctx : FrameCtx) (N : Nat)
    (he : dirtyNonceAt opts.caller N ctx.st)
    (hacct : ctx.account.nonce = N)
    (htoacc : ctx.toAddress = opts.caller → ctx.toAccount.nonce = N)
    (hca : ∀ ca, ctx.createdAddress = some ca → ca ≠ opts.caller)
    (hicc : ∀ o s, dirtyNonceAt opts.caller N s →
      dirtyNonceAt opts.caller N (env.runCode o s).2)
    (hicj : ∀ o s, dirtyNonceAt opts.caller N s →
      dirtyNonceAt opts.caller N (env.runJIT o s).2)
    (hacc : ∀ o s, ((env.runCode o s).1.account).nonce = o.account.nonce)
    (hacj : ∀ o s, ((env.runJIT o s).1.account).nonce = o.account.nonce)
    (hsc : ∀ o s, opts.caller ∉ ((env.runCode o s).1.suicides.getD []))
    (hsj : ∀ o s, opts.caller ∉ ((env.runJIT o s).1.suicides.getD [])) :
    dirtyNonceAt opts.caller N (runCodeStage env opts ctx).st ∧
    (ctx.toAddress = opts.caller →
      ((runCodeStage env opts ctx).toAccount).nonce = N) ∧
    opts.caller ∉
      (((runCodeStage env opts ctx).vmResults.bind (·.suicides)).getD []) := by
  unfold runCodeStage
  rcases hcode : ctx.code with _ | c
  · exact ⟨he, htoacc, by simp⟩
  · dsimp only
    cases ctx.isCompiled
    · rw [show ∀ {α : Type} (a b : α), (if false = true then a else b) = b
        from fun _ _ => rfl]
      apply parseRunResult_dirtyNonce
      · exact hicc _ _ he
      · exact hacct
      · intro h
        rw [hacc]
        exact htoacc h
      · exact hsc _ _
      · exact hca
    · rw [show ∀ {α : Type} (a b : α), (if true = true then a else b) = a
        from fun _ _ => rfl]
      apply parseRunResult_dirtyNonce
      · exact hicj _ _ he
      · exact hacct
      · intro h
        rw [hacj]
        exact htoacc h
      · exact hsj _ _
      · exact hca

theorem setCode_cache (env : Env) (st : VMState) (a : Account)
    (c : List Nat) : (setCode env st a c).2.cache = st.cache := rfl

/-- Through `saveCode` and `parseCallResult`, the caller's dirty-nonce
entry survives: the only cache write, the publishing put at
`ctx.toAddress`, either targets another address, or — when the frame
targets the caller itself — overwrites the entry with the frame's
`toAccount`, which then carries nonce `N` (`setCode` touches only the
code hash).  The frame result's suicide set is the interpreter's. -/
theorem parseCallResult_dirtyNonce (env : Env) (opts : CallOpts)
    (ctx : FrameCtx) (ro : RunOut) (N : Nat)
    (hst : dirtyNonceAt opts.caller N ro.st)
    (hsuic : opts.caller ∉ ((ro.vmResults.bind (·.suicides)).getD []))
    (hta : ctx.toAddress = opts.caller → (ro.toAccount).nonce = N) :
    dirtyNonceAt opts.caller N (parseCallResult env opts ctx ro).2 ∧
    opts.caller ∉
      (((parseCallResult env opts ctx ro).1.vm.bind (·.suicides)).getD []) := by
  obtain ⟨vmR, accR, taccR, gasR, stR⟩ := ro
  simp only at hst hsuic hta
  unfold parseCallResult
  dsimp only
  by_cases hx : ctx.toAddress = opts.caller
  · have htn : taccR.nonce = N := hta hx
    rcases vmR with _ | r
    · refine ⟨?_, by simpa using hsuic⟩
      simp only [Option.map_none', Option.getD_none, Bool.false_eq_true,
        if_false]
      refine ⟨taccR, ?_, htn⟩
      simp only [Cache.put_entries]
      rw [hx]
      exact alookup_upd_eq _ _ _
    · rcases hex : r.exceptionError
      · refine ⟨?_, by simpa using hsuic⟩
        simp only [hex, Option.map_some', Option.getD_some, Bool.false_eq_true,
          if_false]
        split
        · refine ⟨(setCode env stR taccR r.ret).1, ?_, htn⟩
          simp only [setCode_cache, Cache.put_entries]
          rw [hx]
          exact alookup_upd_eq _ _ _
        · refine ⟨taccR, ?_, htn⟩
          simp only [Cache.put_entries]
          rw [hx]
          exact alookup_upd_eq _ _ _
      · refine ⟨?_, by simpa using hsuic⟩
        simp only [hex, Option.map_some', Option.getD_some, if_true,
          Bool.not_true, Bool.false_and, Bool.false_eq_true, if_false]
        exact hst
  · have hupdne : ∀ (l : List (Addr × CEntry)) (v : CEntry),
        alookup (upd l ctx.toAddress v) opts.caller = alookup l opts.caller :=
      fun l v => alookup_upd_ne l _ opts.caller v (Ne.symm hx)
    obtain ⟨A, hA, hN⟩ := hst
    rcases vmR with _ | r
    · refine ⟨⟨A, ?_, hN⟩, by simpa using hsuic⟩
      simp only [Option.map_none', Option.getD_none, Bool.false_eq_true,
        if_false, Cache.put_entries, hupdne]
      exact hA
    · rcases hex : r.exceptionError
      · refine ⟨⟨A, ?_, hN⟩, by simpa using hsuic⟩
        simp only [hex, Option.map_some', Option.getD_some, Bool.false_eq_true,
          if_false, Cache.put_entries, hupdne]
        split
        · simp only [setCode_cache]
          exact hA
        · exact hA
      · refine ⟨⟨A, ?_, hN⟩, by simpa using hsuic⟩
        simp only [hex, Option.map_some', Option.getD_some, if_true,
          Bool.not_true, Bool.false_and, Bool.false_eq_true, if_false]
        exact hA

/-- Across a whole frame — self-sends included — a dirty caller entry
with nonce `N` stays a dirty entry with nonce `N`, and the frame's
reported suicide set never contains the caller, provided the
interpreter preserves dirty-nonce entries at the caller, hands back an
account with the nonce it received, never reports the caller suicided,
and address derivation never yields the caller. -/
theorem runCall_dirtyNonce (env : Env) (opts : CallOpts) (st : VMState)
    (N : Nat)
    (hc : dirtyNonceAt opts.caller N st)
    (hacct : opts.account.nonce = N)
    (hgen : ∀ n, env.generateAddress opts.caller n ≠ opts.caller)
    (hicc : ∀ o s, dirtyNonceAt opts.caller N s →
      dirtyNonceAt opts.caller N (env.runCode o s).2)
    (hicj : ∀ o s, dirtyNonceAt opts.caller N s →
      dirtyNonceAt opts.caller N (env.runJIT o s).2)
    (hacc : ∀ o s, ((env.runCode o s).1.account).nonce = o.account.nonce)
    (hacj : ∀ o s, ((env.runJIT o s).1.account).nonce = o.account.nonce)
    (hsc : ∀ o s, opts.caller ∉ ((env.runCode o s).1.suicides.getD []))
    (hsj : ∀ o s, opts.caller ∉ ((env.runJIT o s).1.suicides.getD [])) :
    dirtyNonceAt opts.caller N (runCall env opts st).2 ∧
    opts.caller ∉ (((runCall env opts st).1.vm.bind (·.suicides)).getD []) := by
  obtain ⟨h1, h2, h3, h4⟩ := callSetup_dirtyNonce env opts st N hc hacct hgen
  obtain ⟨h5, h6, h7⟩ := runCodeStage_dirtyNonce env opts
    (callSetup env opts st) N h1 h2 h3 h4 hicc hicj hacc hacj hsc hsj
  exact parseCallResult_dirtyNonce env opts (callSetup env opts st)
    (runCodeStage env opts (callSetup env opts st)) N h5 h7 h6

theorem Cache.get_put_eq (c : Cache) (x : Addr) (a : Account) :
    (c.put x a).get x = some a := by
  unfold Cache.get Cache.put
  rw [show alookup (upd c.entries x (.stored a true)) x =
    some (.stored a true) from alookup_upd_eq _ _ _]

/-- The trie produced by the finalisation stage is the initial trie
with the cache entries flushed over it (`commitContracts` touches only
the storage-trie registry and `cache.clear` only the cache). -/
theorem finalize_trie (opts : RunTxOpts) (st : VMState) :
    (finalizeStage opts st).trie =
      st.cache.entries.foldl flushEntry st.trie := by
  unfold finalizeStage commitContracts flushState
  split <;> rfl

/-- Sweeping suicides that avoid the sender and then flushing leaves
the sender's trie account equal to its unique dirty cache entry. -/
theorem sweepAndFlush_nonce (opts : RunTxOpts) (st5 : VMState) (V : Account)
    (N : Nat) (suicList : List Addr)
    (hx : opts.tx.sender ∉ suicList)
    (hshape : st5.cache.entries.filter (fun p => p.1 == opts.tx.sender) =
      [(opts.tx.sender, .stored V true)])
    (hVn : V.nonce = N) :
    (alookup (finalizeStage opts
        (suicList.foldl (fun s a => { s with cache := s.cache.del a })
          st5)).trie.store opts.tx.sender).map (·.nonce) = some N := by
  obtain ⟨hf, _⟩ := delFold_avoids suicList st5 opts.tx.sender hx
  rw [finalize_trie]
  rw [flushFold_single _ _ _ V (hf.trans hshape)]
  rw [Option.map_some', hVn]

/-- Through `parseResults` (sender refund, miner reward, suicide sweep)
and the finalisation stages, the sender's account lands in the trie
with the nonce of its dirty cache entry before the stage. -/
theorem parseFinalize_sender_nonce (opts : RunTxOpts) (block : BlockHeader)
    (basefee : Nat) (callRes : CallResult) (st3 : VMState) (A : Account)
    (hent : alookup st3.cache.entries opts.tx.sender = some (.stored A true))
    (hnos : opts.tx.sender ∉ ((callRes.vm.bind (·.suicides)).getD [])) :
    (alookup (finalizeStage opts
        (parseResultsStage opts block basefee callRes st3).2).trie.store
      opts.tx.sender).map (·.nonce) = some A.nonce := by
  have hget : st3.cache.get opts.tx.sender = some A := by
    unfold Cache.get
    rw [hent]
  unfold parseResultsStage
  dsimp only
  rw [hget]
  simp only [Option.getD_some]
  by_cases hcb : block.coinbase = opts.tx.sender
  · rw [hcb, Cache.get_put_eq]
    simp only [Option.getD_some]
    exact sweepAndFlush_nonce opts _
      { nonce := A.nonce,
        balance := ((opts.tx.gasLimit : Int) -
            ((applyRefund (callRes.gasUsed + basefee)
              (callRes.vm.bind fun x => x.gasRefund) : Nat) : Int)) *
            (opts.tx.gasPrice : Int) + A.balance +
          ((applyRefund (callRes.gasUsed + basefee)
              (callRes.vm.bind fun x => x.gasRefund) : Nat) : Int) *
            (opts.tx.gasPrice : Int),
        storageRoot := A.storageRoot, codeHash := A.codeHash }
      A.nonce _ hnos
      (by simp only [Cache.put_entries]
          rw [filterKey_upd_eq])
      rfl
  · exact sweepAndFlush_nonce opts _
      { nonce := A.nonce,
        balance := ((opts.tx.gasLimit : Int) -
            ((applyRefund (callRes.gasUsed + basefee)
              (callRes.vm.bind fun x => x.gasRefund) : Nat) : Int)) *
            (opts.tx.gasPrice : Int) + A.balance,
        storageRoot := A.storageRoot, codeHash := A.codeHash }
      A.nonce _ hnos
      (by simp only [Cache.put_entries]
          rw [filterKey_upd_ne _ _ _ _ (Ne.symm hcb), filterKey_upd_eq])
      rfl

/-- C6: a transaction that completes successfully leaves the sender's
account in the post-state trie with its nonce increased by exactly one
over the pre-state nonce read at validation time.  Self-sends are
covered, and the sender's balance may change arbitrarily during
execution: every write the executors themselves perform re-reads the
stored account and changes only its balance.  The interpreter is the
external collaborator, so the theorem assumes of it only that it maps a
dirty sender cache entry to a dirty entry with the same nonce, that the
target account it reports back carries the nonce it was handed, and
that it never reports the sender — an externally-owned account —
self-destructed; address derivation is assumed never to yield the
sender. -/
theorem successful_tx_increments_sender_nonce (env : Env) (opts : RunTxOpts)
    (st : VMState)
    (hok : ∃ res, (runTx env opts st).1 = .ok res)
    (hicc : ∀ o s N, dirtyNonceAt opts.tx.sender N s →
      dirtyNonceAt opts.tx.sender N (env.runCode o s).2)
    (hicj : ∀ o s N, dirtyNonceAt opts.tx.sender N s →
      dirtyNonceAt opts.tx.sender N (env.runJIT o s).2)
    (hacc : ∀ o s, ((env.runCode o s).1.account).nonce = o.account.nonce)
    (hacj : ∀ o s, ((env.runJIT o s).1.account).nonce = o.account.nonce)
    (hsc : ∀ o s, opts.tx.sender ∉ ((env.runCode o s).1.suicides.getD []))
    (hsj : ∀ o s, opts.tx.sender ∉ ((env.runJIT o s).1.suicides.getD []))
    (hgen : ∀ n, env.generateAddress opts.tx.sender n ≠ opts.tx.sender) :
    (alookup (runTx env opts st).2.trie.store opts.tx.sender).map (·.nonce) =
      some ((preSender opts st).nonce + 1) := by
  obtain ⟨res, hok⟩ := hok
  unfold runTx at hok ⊢
  by_cases hg : (opts.block.getD defaultBlock).gasLimit < opts.tx.gasLimit
  · simp only [if_pos hg] at hok
    exact Except.noConfusion hok
  · simp only [if_neg hg] at hok ⊢
    unfold runTxChecked at hok ⊢
    by_cases h1 : (((populateStage opts (opts.block.getD defaultBlock)
        st).cache.get opts.tx.sender).getD zeroAccount).balance <
        getUpfrontCost opts.tx
    · simp only [if_pos h1] at hok
      exact Except.noConfusion hok
    · simp only [if_neg h1] at hok ⊢
      by_cases h2 : opts.skipNonce = false ∧
          (((populateStage opts (opts.block.getD defaultBlock) st).cache.get
            opts.tx.sender).getD zeroAccount).nonce ≠ opts.tx.nonce
      · simp only [if_pos h2] at hok
        exact Except.noConfusion hok
      · simp only [if_neg h2] at hok ⊢
        clear hok
        obtain ⟨hinv, hnos⟩ := runCall_dirtyNonce env
          { caller := opts.tx.sender,
            account :=
              { nonce := (((populateStage opts (opts.block.getD defaultBlock)
                  st).cache.get opts.tx.sender).getD zeroAccount).nonce + 1,
                balance := (((populateStage opts (opts.block.getD defaultBlock)
                    st).cache.get opts.tx.sender).getD zeroAccount).balance -
                  (opts.tx.gasLimit : Int) * (opts.tx.gasPrice : Int),
                storageRoot := (((populateStage opts
                  (opts.block.getD defaultBlock) st).cache.get
                  opts.tx.sender).getD zeroAccount).storageRoot,
                codeHash := (((populateStage opts (opts.block.getD defaultBlock)
                  st).cache.get opts.tx.sender).getD zeroAccount).codeHash },
            toAddr := opts.tx.toAddr, value := some (opts.tx.value : Int),
            data := some opts.tx.data, code := none,
            gasLimit := (opts.tx.gasLimit : Int) -
              ((getBaseFee opts.tx : Nat) : Int),
            gasPrice := opts.tx.gasPrice, origin := none, compiled := false,
            depth := none, suicides := none,
            block := some (opts.block.getD defaultBlock) }
          { cache := (populateStage opts (opts.block.getD defaultBlock)
                st).cache.put opts.tx.sender
              { nonce := (((populateStage opts (opts.block.getD defaultBlock)
                  st).cache.get opts.tx.sender).getD zeroAccount).nonce + 1,
                balance := (((populateStage opts (opts.block.getD defaultBlock)
                    st).cache.get opts.tx.sender).getD zeroAccount).balance -
                  (opts.tx.gasLimit : Int) * (opts.tx.gasPrice : Int),
                storageRoot := (((populateStage opts
                  (opts.block.getD defaultBlock) st).cache.get
                  opts.tx.sender).getD zeroAccount).storageRoot,
                codeHash := (((populateStage opts (opts.block.getD defaultBlock)
                  st).cache.get opts.tx.sender).getD zeroAccount).codeHash },
            trie := (populateStage opts (opts.block.getD defaultBlock) st).trie,
            storageTries := (populateStage opts (opts.block.getD defaultBlock)
              st).storageTries }
          ((preSender opts st).nonce + 1)
          (by refine
                ⟨{ nonce := (((populateStage opts
                       (opts.block.getD defaultBlock) st).cache.get
                       opts.tx.sender).getD zeroAccount).nonce + 1,
                   balance := (((populateStage opts
                       (opts.block.getD defaultBlock) st).cache.get
                       opts.tx.sender).getD zeroAccount).balance -
                     (opts.tx.gasLimit : Int) * (opts.tx.gasPrice : Int),
                   storageRoot := (((populateStage opts
                       (opts.block.getD defaultBlock) st).cache.get
                       opts.tx.sender).getD zeroAccount).storageRoot,
                   codeHash := (((populateStage opts
                       (opts.block.getD defaultBlock) st).cache.get
                       opts.tx.sender).getD zeroAccount).codeHash },
                 ?_, rfl⟩
              simp only [Cache.put_entries]
              exact alookup_upd_eq _ _ _)
          rfl
          hgen
          (fun o s => hicc o s _) (fun o s => hicj o s _)
          hacc hacj hsc hsj
        obtain ⟨A, hA, hNA⟩ := hinv
        rw [← hNA]
        exact parseFinalize_sender_nonce opts (opts.block.getD defaultBlock)
          (getBaseFee opts.tx) _ _ A hA hnos

/-- Witness for C6: under the echoing interpreter, the plain value
transfer leaves sender 1 with nonce `0 + 1` in the post-state trie. -/
theorem successful_tx_increments_sender_nonce_witness :
    (alookup (runTx envEcho optsTxTransfer stTx).2.trie.store
      optsTxTransfer.tx.sender).map (·.nonce) =
      some ((preSender optsTxTransfer stTx).nonce + 1) :=
  successful_tx_increments_sender_nonce envEcho optsTxTransfer stTx
    ⟨_, rfl⟩ (fun _ _ _ h => h) (fun _ _ _ h => h)
    (fun _ _ => rfl) (fun _ _ => rfl)
    (fun _ _ => by simp [envEcho, envOk, okResult])
    (fun _ _ => by simp [envEcho, envOk, okResult])
    (fun n => by
      show 100 + 1 + n ≠ 1
      omega)

/-- C3 counterexample: on a transaction whose sender simultaneously
lacks funds and carries a wrong nonce (`skipNonce` off), `runTx` does
not fail with the bad-nonce error — the insufficient-funds check wins —
so the claim's second "whenever" is false as stated. -/
theorem badNonce_not_reported_cex :
    optsTxBothBad.skipNonce = false ∧
    (preSender optsTxBothBad stPoor).nonce ≠ optsTxBothBad.tx.nonce ∧
    (runTx envOk optsTxBothBad stPoor).1 ≠ .error .badNonce ∧
    (runTx envOk optsTxBothBad stPoor).1 = .error .insufficientFunds := by
  decide

/-- C3 (amended): `runTx` fails with the insufficient-funds error
whenever the sender's balance is below `gasLimit·gasPrice + value`, and
with the bad-nonce error whenever the funds are sufficient, `skipNonce`
is false and the sender's nonce differs from the tx nonce; in both
cases the transaction aborts with the post-warming state unchanged — in
particular the cache is never flushed, the nonce is not incremented and
the trie is exactly the initial one. -/
theorem validation_errors_abort_without_mutation (env : Env)
    (opts : RunTxOpts) (st : VMState)
    (hgl : opts.tx.gasLimit ≤ (opts.block.getD defaultBlock).gasLimit) :
    ((preSender opts st).balance < getUpfrontCost opts.tx →
      runTx env opts st = (.error .insufficientFunds, preState opts st)) ∧
    (getUpfrontCost opts.tx ≤ (preSender opts st).balance →
      opts.skipNonce = false → (preSender opts st).nonce ≠ opts.tx.nonce →
      runTx env opts st = (.error .badNonce, preState opts st)) ∧
    (preState opts st).trie = st.trie := by
  refine ⟨?_, ?_, populateStage_trie _ _ _⟩
  · intro hb
    simp only [preSender, preState] at hb ⊢
    unfold runTx runTxChecked
    simp [not_lt.mpr hgl, hb]
  · intro hb hsn hnn
    simp only [preSender, preState] at hb hnn ⊢
    unfold runTx runTxChecked
    simp [not_lt.mpr hgl, not_lt.mpr hb, hsn, hnn]

/-- Witness for the amended C3: both error branches fire at concrete
inputs and return the unmutated post-warming state. -/
theorem validation_errors_abort_without_mutation_witness :
    runTx envOk optsTxBothBad stPoor =
      (.error .insufficientFunds, preState optsTxBothBad stPoor) ∧
    runTx envOk optsTxBadNonce stTx =
      (.error .badNonce, preState optsTxBadNonce stTx) :=
  ⟨(validation_errors_abort_without_mutation envOk optsTxBothBad stPoor
      (by decide)).1 (by decide),
   (validation_errors_abort_without_mutation envOk optsTxBadNonce stTx
      (by decide)).2.1 (by decide) (by decide) (by decide)⟩

/-- C2 (code bug, evaluated at the failing input): a transaction whose
only exception is in a nested frame — the top frame's interpreter
result has `exceptionError` unset — leaves the nested recipient
(address 7) holding the transferred 2 wei, because the frame checkpoint
is taken only inside `runCode`, after the value credit, so
`cache.revert()`/`trie.revert()` restore a snapshot that already
contains the credit; and the sender's balance change is
`−gasUsed·gasPrice − tx.value = −21105` (ending at 978895), not the
claimed `−gasUsed·gasPrice = −21100`. -/
theorem exception_keeps_recipient_credit :
    (runTx envNested optsTxNested stTx).1.map
        (fun r => r.callRes.vm.map (·.exceptionError)) = .ok (some false) ∧
    (runTx envNested optsTxNested stTx).1.map (·.gasUsed) = .ok 21100 ∧
    (alookup (runTx envNested optsTxNested stTx).2.trie.store 7).map
        (·.balance) = some 2 ∧
    (alookup (runTx envNested optsTxNested stTx).2.trie.store 1).map
        (·.balance) = some 978895 := by
  decide

/-- C5 (code bug, evaluated at the failing input): a frame with empty
code (a pure value transfer, `vm = none` confirming the interpreter
never ran) commits the cache checkpoint but never releases the trie
checkpoint taken next to it, leaving the trie checkpoint stack one
deeper than before the frame. -/
theorem empty_code_frame_leaks_trie_checkpoint :
    (runCall envOk optsTransfer stFrame).2.cache.checkpoints.length =
      stFrame.cache.checkpoints.length ∧
    (runCall envOk optsTransfer stFrame).2.trie.checkpoints.length =
      stFrame.trie.checkpoints.length + 1 ∧
    (runCall envOk optsTransfer stFrame).1.vm = none := by
  decide

/-- C8 (code bug, evaluated at the failing input): a creation frame
whose interpreter faults with a zero-balance created account does run
`cache.del(createdAddress)`, but the subsequent `cache.revert()`
restores the checkpoint snapshot taken after the created account was
stored, so address 101 is still present (as a zero account) in both the
cache and the trie after the frame. -/
theorem created_account_delete_clobbered_by_revert :
    (runCall envExc optsCreateExc stFrame).1.createdAddress = some 101 ∧
    (runCall envExc optsCreateExc stFrame).1.vm.map (·.exceptionError) =
      some true ∧
    (runCall envExc optsCreateExc stFrame).1.vm.map (·.account.balance) =
      some 0 ∧
    (runCall envExc optsCreateExc stFrame).2.cache.get 101 =
      some zeroAccount ∧
    alookup (runCall envExc optsCreateExc stFrame).2.trie.store 101 =
      some zeroAccount := by
  decide

/-- A frame whose selected code is absent skips the interpreter: the
cache checkpoint is committed at once (the trie checkpoint stays open,
see the C5 theorem), `saveCode` is skipped and the recipient is written
back. -/
theorem runCall_of_no_code (env : Env) (opts : CallOpts) (st : VMState)
    (hc : (callSetup env opts st).code = none) :
    runCall env opts st =
      ({ gasUsed := 0, fromAccount := (callSetup env opts st).account,
         toAccount := (callSetup env opts st).toAccount,
         createdAddress := (callSetup env opts st).createdAddress, vm := none,
         vmException := 1 },
       { (callSetup env opts st).st with
         cache := (((callSetup env opts st).st.cache.checkpoint).commit).put
           (callSetup env opts st).toAddress (callSetup env opts st).toAccount,
         trie := (callSetup env opts st).st.trie.checkpoint }) := by
  unfold runCall
  generalize callSetup env opts st = ctx at hc ⊢
  obtain ⟨tv, acc, ca, ta, tacc, code, td, ic, s⟩ := ctx
  subst hc
  rfl

/-- Under the C10 hypotheses, the setup stages select no code, target
`t` with a fresh zero account, and have already written the zero
account into the trie at `t`. -/
theorem callSetup_missing_recipient (env : Env) (opts : CallOpts)
    (st : VMState) (t : Addr)
    (hto : opts.toAddr = some t) (hcode : opts.code = none)
    (hval : opts.value.getD 0 = 0) (hne : t ≠ opts.caller)
    (hcache : alookup st.cache.entries t = none)
    (htrie : alookup st.trie.store t = none) :
    (callSetup env opts st).code = none ∧
    (callSetup env opts st).toAddress = t ∧
    (callSetup env opts st).toAccount = zeroAccount ∧
    (callSetup env opts st).createdAddress = none ∧
    alookup (callSetup env opts st).st.trie.store t = some zeroAccount := by
  have hget : ∀ (arg : Account) (b : Int),
      (st.putAccountBalance opts.caller arg b).getAccount t =
        (zeroAccount,
         { st.putAccountBalance opts.caller arg b with
           cache := (st.putAccountBalance opts.caller arg b).cache.putWarm t
             zeroAccount }) := by
    intro arg b
    refine getAccount_of_none _ t ?_ ?_
    · rw [putAccountBalance_cache_ne _ _ _ _ _ hne]
      exact hcache
    · rw [putAccountBalance_trie_ne _ _ _ _ _ hne]
      exact htrie
  have hwr : ∀ (s : VMState) (arg : Account) (b : Int),
      alookup s.cache.entries t = some (.stored zeroAccount false) →
      alookup (s.putAccountBalance t arg b).trie.store t =
        some { zeroAccount with balance := b } := by
    intro s arg b hs
    rw [putAccountBalance_trie_self, getAccount_of_stored s t zeroAccount false hs]
  unfold callSetup
  simp [hto, hcode, hval, hget, hwr, mkFrame, Cache.putWarm, alookup_upd_eq,
    Account.isContract, emptyCodeHash, zeroAccount]

set_option maxHeartbeats 1000000 in
/-- C10: a CALL frame with zero or absent value (absent is read as 0)
still writes the recipient back through the state manager: calling an
address that exists in neither the cache nor the trie materialises a
zero account there — in both the cache and the trie — rather than
leaving the address absent. -/
theorem call_materialises_missing_recipient (env : Env) (opts : CallOpts)
    (st : VMState) (t : Addr)
    (hto : opts.toAddr = some t)
    (hcode : opts.code = none)
    (hval : opts.value = none ∨ opts.value = some 0)
    (hcaller : opts.caller ≠ t)
    (hcache : alookup st.cache.entries t = none)
    (htrie : alookup st.trie.store t = none) :
    (runCall env opts st).2.cache.get t = some zeroAccount ∧
    alookup (runCall env opts st).2.trie.store t = some zeroAccount := by
  have hv : opts.value.getD 0 = 0 := by rcases hval with h | h <;> simp [h]
  have hne : t ≠ opts.caller := Ne.symm hcaller
  obtain ⟨hc, hta, htacc, hca, htr⟩ :=
    callSetup_missing_recipient env opts st t hto hcode hv hne hcache htrie
  rw [runCall_of_no_code env opts st hc]
  constructor
  · simp [Cache.get, Cache.put, Cache.checkpoint, Cache.commit, hta, htacc,
      alookup_upd_eq]
  · simpa [Trie.checkpoint] using htr

/-- Witness for C10: calling absent address 9 with absent value from
caller 1 materialises a zero account at 9 in the cache and the trie. -/
theorem call_materialises_missing_recipient_witness :
    (runCall envOk optsCallMissing stFrame).2.cache.get 9 = some zeroAccount ∧
    alookup (runCall envOk optsCallMissing stFrame).2.trie.store 9 =
      some zeroAccount :=
  call_materialises_missing_recipient envOk optsCallMissing stFrame 9
    rfl rfl (Or.inl rfl) (by decide) (by decide) (by decide)

/-- A CREATE frame always selects the init code from `opts.data` (the
fresh created account is never a contract, so `loadCode` keeps the code
handed in) and derives the created address from the caller's nonce. -/
theorem callSetup_creation (env : Env) (opts : CallOpts) (st : VMState)
    (hto : opts.toAddr = none) :
    (callSetup env opts st).code = opts.data ∧
    (callSetup env opts st).createdAddress =
      some (env.generateAddress opts.caller opts.account.nonce) ∧
    (callSetup env opts st).toAddress =
      env.generateAddress opts.caller opts.account.nonce ∧
    (callSetup env opts st).isCompiled = opts.compiled := by
  unfold callSetup
  simp [hto, mkFrame, Account.isContract, zeroAccount, emptyCodeHash]

/-- Characterisation of a CREATE frame whose (non-precompiled)
interpreter run returns the fixed result `r` without exception: the
contract-creation tail charges `CreateDataGas` per returned byte when it
fits within the frame's gas limit and installs the code at the created
address; otherwise the return value is dropped, the gas is unchanged and
no code is installed. -/
theorem runCall_create_tail (env : Env) (opts : CallOpts) (st : VMState)
    (c : List Nat) (ca : Addr) (r : RunCodeResult)
    (hc : (callSetup env opts st).code = some c)
    (hca : (callSetup env opts st).createdAddress = some ca)
    (hta : (callSetup env opts st).toAddress = ca)
    (hic : (callSetup env opts st).isCompiled = false)
    (hr : ∀ o s, (env.runCode o s).1 = r)
    (hexc : r.exceptionError = false) :
    (((r.gasUsed + r.ret.length * createDataGas : Nat) : Int) ≤ opts.gasLimit →
      r.ret ≠ [] →
      (runCall env opts st).1.gasUsed = r.gasUsed + r.ret.length * createDataGas ∧
      (runCall env opts st).1.vmException = r.exception.getD 1 ∧
      (runCall env opts st).2.cache.get ca =
        some { r.account with codeHash := env.codeHashFn r.ret } ∧
      alookup (runCall env opts st).2.trie.codes (env.codeHashFn r.ret) =
        some r.ret) ∧
    (¬ ((r.gasUsed + r.ret.length * createDataGas : Nat) : Int) ≤ opts.gasLimit →
      (runCall env opts st).1.gasUsed = r.gasUsed ∧
      (runCall env opts st).1.vm = some { r with ret := [] } ∧
      (runCall env opts st).1.vmException = r.exception.getD 1 ∧
      (runCall env opts st).2.cache.get ca = some r.account) := by
  unfold runCall runCodeStage parseRunResult parseCallResult
  generalize callSetup env opts st = ctx at hc hca hta hic ⊢
  obtain ⟨tv, acc, caf, taf, tacc, code, td, ic, s⟩ := ctx
  simp only at hc hca hta hic
  subst hc hca hic hta
  simp only [hr, hexc, Bool.false_eq_true, false_and, if_false, if_neg,
    not_false_iff]
  constructor
  · intro hfee hret
    rw [if_pos hfee]
    have hemp : r.ret.isEmpty = false := by
      cases hl : r.ret with
      | nil => exact absurd hl hret
      | cons x xs => rfl
    simp [hexc, hemp, setCode, Cache.get, Cache.put, alookup_upd_eq]
  · intro hfee
    rw [if_neg hfee]
    simp [hexc, setCode, Cache.get, Cache.put, alookup_upd_eq, List.isEmpty]

/-- C4: a completed (exception-free) contract-creation frame computes
`returnFee = gasUsed + |return|·CreateDataGas`; when `returnFee` fits
within the frame's gas limit, `gasUsed` becomes `returnFee` and the
returned code is installed at the created address (codeHash updated,
blob stored); otherwise the return value is discarded — no code
installed, `gasUsed` unchanged — and the frame still reports success
(`vm.exception = 1`) with an empty return. -/
theorem creation_return_fee (env : Env) (opts : CallOpts) (st : VMState)
    (r : RunCodeResult) (c : List Nat)
    (hto : opts.toAddr = none)
    (hdata : opts.data = some c)
    (hcomp : opts.compiled = false)
    (hr : ∀ o s, (env.runCode o s).1 = r)
    (hexc : r.exceptionError = false)
    (hexn : r.exception = none) :
    (((r.gasUsed + r.ret.length * createDataGas : Nat) : Int) ≤ opts.gasLimit →
      r.ret ≠ [] →
      (runCall env opts st).1.gasUsed = r.gasUsed + r.ret.length * createDataGas ∧
      (runCall env opts st).2.cache.get
          (env.generateAddress opts.caller opts.account.nonce) =
        some { r.account with codeHash := env.codeHashFn r.ret } ∧
      alookup (runCall env opts st).2.trie.codes (env.codeHashFn r.ret) =
        some r.ret) ∧
    (¬ ((r.gasUsed + r.ret.length * createDataGas : Nat) : Int) ≤ opts.gasLimit →
      (runCall env opts st).1.gasUsed = r.gasUsed ∧
      (runCall env opts st).1.vm = some { r with ret := [] } ∧
      (runCall env opts st).1.vmException = 1 ∧
      (runCall env opts st).2.cache.get
          (env.generateAddress opts.caller opts.account.nonce) =
        some r.account) := by
  obtain ⟨hc, hca, hta, hic⟩ := callSetup_creation env opts st hto
  rw [hdata] at hc
  rw [hcomp] at hic
  have h := runCall_create_tail env opts st c _ r hc hca hta hic hr hexc
  refine ⟨fun hf hret => ?_, fun hf => ?_⟩
  · obtain ⟨hg, _, hcc, htr⟩ := h.1 hf hret
    exact ⟨hg, hcc, htr⟩
  · obtain ⟨hg, hvm, hex, hcc⟩ := h.2 hf
    refine ⟨hg, hvm, ?_, hcc⟩
    rw [hex, hexn]
    rfl

/-- Witness for C4: with interpreter result `retResult` (gas 5, return
`[7,7]`), the frame with gas limit 1000 installs the code and reports
`gasUsed = 405`, and the frame with gas limit 404 keeps `gasUsed = 5`,
drops the return and still reports success. -/
theorem creation_return_fee_witness :
    ((runCall envRet optsCreateRet stFrame).1.gasUsed =
        retResult.gasUsed + retResult.ret.length * createDataGas ∧
      (runCall envRet optsCreateRet stFrame).2.cache.get
          (envRet.generateAddress optsCreateRet.caller
            optsCreateRet.account.nonce) =
        some { retResult.account with codeHash := envRet.codeHashFn retResult.ret } ∧
      alookup (runCall envRet optsCreateRet stFrame).2.trie.codes
          (envRet.codeHashFn retResult.ret) = some retResult.ret) ∧
    ((runCall envRet optsCreateTight stFrame).1.gasUsed = retResult.gasUsed ∧
      (runCall envRet optsCreateTight stFrame).1.vm =
        some { retResult with ret := [] } ∧
      (runCall envRet optsCreateTight stFrame).1.vmException = 1 ∧
      (runCall envRet optsCreateTight stFrame).2.cache.get
          (envRet.generateAddress optsCreateTight.caller
            optsCreateTight.account.nonce) = some retResult.account) :=
  ⟨(creation_return_fee envRet optsCreateRet stFrame retResult [1]
      rfl rfl rfl (fun _ _ => rfl) rfl rfl).1 (by decide) (by decide),
   (creation_return_fee envRet optsCreateTight stFrame retResult [1]
      rfl rfl rfl (fun _ _ => rfl) rfl rfl).2 (by decide)⟩

end EthVM
